import Mathlib

/-!
Shallow embedding of the mms micromouse simulator source sample:
`src/sim/Controller.cpp`, `src/Main.cpp`, `src/sim/MazeGraphic.h`,
`src/sim/TileGraphic.h`, and `src/mouse/mackAlgoTwo/Info.h`.
Pure fragments of the C++ become Lean functions; the facts the code reads
from its environment (directory listings, build exit codes, the result of
`Mouse::initialize`) become explicit parameters; a call to
`SimUtilities::quit` is recorded as a `fatal` flag.
-/

namespace Mms

/-- Compass directions (`Direction.h`, used throughout `Controller.cpp`). -/
inductive Direction where
  | NORTH
  | EAST
  | SOUTH
  | WEST
deriving DecidableEq, Repr

/-- Wall layout of the start tile (0, 0), as read by
`Controller::getInitialDirection` through `Maze::getTile(0, 0)->isWall`. -/
structure StartCellWalls where
  north : Bool
  east : Bool
  south : Bool
  west : Bool
deriving DecidableEq, Repr

/-- Wall presence of the start cell in a given direction
(`Tile::isWall`). -/
def isWall (w : StartCellWalls) : Direction → Bool
  | .NORTH => w.north
  | .EAST => w.east
  | .SOUTH => w.south
  | .WEST => w.west

/-- Constant from `Controller.cpp:19`. -/
def OPENING_DIRECTION_STRING : String := "OPENING"

/-- Constant from `Controller.cpp:20`. -/
def WALL_DIRECTION_STRING : String := "WALL"

/-- Modelled from the spec: membership in the `STRING_TO_INTERFACE_TYPE` map
(`InterfaceType.h` is outside the source sample); the spec says the interface
mode "must be one of the two recognized mode names", discrete and
continuous. -/
def stringToInterfaceTypeContains (s : String) : Bool :=
  s == "DISCRETE" || s == "CONTINUOUS"

/-- Modelled from the spec: membership in the `STRING_TO_DIRECTION` map
(`Direction.h` is outside the source sample); it holds exactly the four
cardinal direction names printed by
`Controller::validateMouseInitialDirection`. -/
def stringToDirectionContains (s : String) : Bool :=
  s == "NORTH" || s == "EAST" || s == "SOUTH" || s == "WEST"

/-- Modelled from the spec: lookup in the `STRING_TO_DIRECTION` map; a `QMap`
lookup of a missing key yields a default-constructed value, modelled as the
first enumerator. -/
def stringToDirectionValue (s : String) : Direction :=
  if s == "NORTH" then .NORTH
  else if s == "EAST" then .EAST
  else if s == "SOUTH" then .SOUTH
  else if s == "WEST" then .WEST
  else .NORTH

/-- Embeds `Controller::validateMouseInterfaceType` (Controller.cpp:100-113);
`true` means the function called `SimUtilities::quit` (fatal). -/
def validateMouseInterfaceTypeFatal (interfaceType : String) : Bool :=
  !(stringToInterfaceTypeContains interfaceType)

/-- Embeds `Controller::validateMouseInitialDirection` (Controller.cpp:115-134);
`true` means fatal. -/
def validateMouseInitialDirectionFatal (initialDirection : String) : Bool :=
  !(stringToDirectionContains initialDirection
    || initialDirection == OPENING_DIRECTION_STRING
    || initialDirection == WALL_DIRECTION_STRING)

/-- Embeds `Controller::validateTileTextRowsAndCols` (Controller.cpp:136-148);
`true` means fatal. -/
def validateTileTextRowsAndColsFatal
    (tileTextNumberOfRows tileTextNumberOfCols : Int) : Bool :=
  decide (tileTextNumberOfRows < 0) || decide (tileTextNumberOfCols < 0)

/-- Embeds `Controller::validateMouseWheelSpeedFraction` (Controller.cpp:150-159),
modelling the C++ `double` by the rationals; `true` means fatal. -/
def validateMouseWheelSpeedFractionFatal (wheelSpeedFraction : ℚ) : Bool :=
  !(decide (0 ≤ wheelSpeedFraction) && decide (wheelSpeedFraction ≤ 1))

/-- Embeds `Controller::getInitialDirection` (Controller.cpp:197-210). -/
def getInitialDirection (initialDirection : String) (walls : StartCellWalls) :
    Direction :=
  let wallNorth := walls.north
  let wallEast := walls.east
  if !(stringToDirectionContains initialDirection) && wallNorth == wallEast then
    .NORTH
  else if initialDirection == OPENING_DIRECTION_STRING then
    (if wallNorth then .EAST else .NORTH)
  else if initialDirection == WALL_DIRECTION_STRING then
    (if wallNorth then .NORTH else .EAST)
  else
    stringToDirectionValue initialDirection

/-- Embeds `Controller::receiveResultFromWorker` (Controller.cpp:221-225): the
bytes this slot writes to the external process's standard input for one worker
result. -/
def receiveResultFromWorker (response : List Char) : List Char :=
  if !response.isEmpty then response ++ ['\n'] else []

/-- Environment facts `Controller::startMouseAlgorithm` consults: the top-level
directories under the mouse-algos directory, the relative file paths of the
selected algorithm's directory, and the exit code of the `g++` build. -/
structure AlgoEnv where
  topLevelDirs : List String
  relativePaths : List String
  buildExitCode : Int

/-- Embeds `Controller::startMouseAlgorithm` (Controller.cpp:264-342); `true`
means some branch called `SimUtilities::quit`: an unknown algorithm name, a
non-zero build exit code, or the absence of a `Main.cpp` entry file. -/
def startMouseAlgorithmFatal (mouseAlgorithm : String) (env : AlgoEnv) : Bool :=
  if !(env.topLevelDirs.contains mouseAlgorithm) then true
  else if env.relativePaths.contains "Main.cpp" then decide (env.buildExitCode ≠ 0)
  else true

/-- Environment facts `Controller::initAndValidateMouse` consults: whether
`Mouse::initialize` succeeded and the two `MouseChecker` compatibility
results. -/
structure MouseEnv where
  initializeSuccess : Bool
  discreteCompatible : Bool
  continuousCompatible : Bool

/-- Embeds `Controller::initAndValidateMouse` (Controller.cpp:161-195); `true`
means fatal. The initial direction is resolved first (its value does not
affect fatality); then a failed `Mouse::initialize` or a mode-incompatible
mouse definition is fatal. This function runs only after the interface type
was validated, so the string compare models the `QMap` lookup faithfully. -/
def initAndValidateMouseFatal (interfaceType initialDirection : String)
    (walls : StartCellWalls) (env : MouseEnv) : Bool :=
  let _direction := getInitialDirection initialDirection walls
  if !env.initializeSuccess then true
  else if interfaceType == "DISCRETE" then !env.discreteCompatible
  else !env.continuousCompatible

/-- Static options declared by the external algorithm
(`StaticMouseAlgorithmOptions`, fields as used by the constructor). -/
structure StaticOptions where
  mouseFile : String
  interfaceType : String
  initialDirection : String
  tileTextNumberOfRows : Int
  tileTextNumberOfCols : Int
  wheelSpeedFraction : ℚ

/-- Observable outcome of running the `Controller` constructor: whether some
step called `SimUtilities::quit`, and whether control ever reached
`Mouse::initialize` (the load of the mouse-definition file). -/
structure ControllerOutcome where
  fatal : Bool
  mouseFileLoaded : Bool
deriving DecidableEq, Repr

/-- Embeds the body of `Controller::Controller` (Controller.cpp:22-84): start
the mouse algorithm, wait for the static options, validate interface type,
initial direction, tile-text dimensions and wheel-speed fraction in that
order, and only then initialize the mouse from the mouse-definition file.
`SimUtilities::quit` ends the process, so later steps never run. -/
def controllerConstructor (mouseAlgorithm : String) (opts : StaticOptions)
    (algoEnv : AlgoEnv) (walls : StartCellWalls) (mouseEnv : MouseEnv) :
    ControllerOutcome :=
  if startMouseAlgorithmFatal mouseAlgorithm algoEnv then ⟨true, false⟩
  else if validateMouseInterfaceTypeFatal opts.interfaceType then ⟨true, false⟩
  else if validateMouseInitialDirectionFatal opts.initialDirection then ⟨true, false⟩
  else if validateTileTextRowsAndColsFatal
      opts.tileTextNumberOfRows opts.tileTextNumberOfCols then ⟨true, false⟩
  else if validateMouseWheelSpeedFractionFatal opts.wheelSpeedFraction then ⟨true, false⟩
  else ⟨initAndValidateMouseFatal opts.interfaceType opts.initialDirection walls mouseEnv, true⟩

/-- Embeds `struct Info` (mouse/mackAlgoTwo/Info.h:11-19). The five
`unsigned char` fields are modelled as naturals (kept below 256 when written
through `storeInfo`); the `float distance` is modelled as a rational; the
`Cell* parent` pointer is modelled as the referenced cell's position. -/
structure Info where
  sequenceNumber : Nat
  parentPosition : Nat
  distance : ℚ
  parent : Nat
  sourceDirection : Nat
  straightAwayLength : Nat
  heapIndex : Nat
deriving DecidableEq

/-- Value an `unsigned char` field actually holds after `n` is stored into
it. -/
def byteStore (n : Nat) : Nat := n % 256

/-- Builds an `Info` record the way assignments to the struct's fields do:
each `unsigned char` field keeps only the low eight bits of the stored
value. -/
def storeInfo (seq parentPos : Nat) (dist : ℚ) (par : Nat)
    (srcDir runLen heapIdx : Nat) : Info :=
  { sequenceNumber := byteStore seq
    parentPosition := byteStore parentPos
    distance := dist
    parent := par
    sourceDirection := byteStore srcDir
    straightAwayLength := byteStore runLen
    heapIndex := byteStore heapIdx }

/-- Modelled from the spec: the Search Engine's visited test (the planner of
mackAlgoTwo is outside the source sample); a record counts as visited in epoch
`E` exactly when its sequence stamp equals `E`. -/
def isVisited (E : Nat) (i : Info) : Bool := i.sequenceNumber == E

/-- Modelled from the spec: the Search Engine's lazy epoch reset (the planner
of mackAlgoTwo is outside the source sample). Touching a cell's `Info` during
epoch `E` leaves it alone if its sequence stamp equals `E`; otherwise the
record is treated as unvisited, its stale distance, parent and direction data
is overwritten with fresh initial values, and the record is stamped with
`E`. -/
def touchInfo (E : Nat) (i : Info) : Info :=
  if i.sequenceNumber == E then i
  else
    { sequenceNumber := E
      parentPosition := 0
      distance := 0
      parent := 0
      sourceDirection := 0
      straightAwayLength := 0
      heapIndex := 0 }

/-- Prepends `b` to the first entry of a line list (`QString::split` never
returns an empty list, but the function is total). -/
def consHead (b : List Char) : List (List Char) → List (List Char)
  | [] => [b]
  | h :: t => (b ++ h) :: t

/-- Embeds `input.split("\n")` (Controller.cpp:239): split on every newline,
keeping empty parts, so the result has one more entry than the input has
newlines and the last entry is the unterminated tail. -/
def splitOnNewlines : List Char → List (List Char)
  | [] => [[]]
  | c :: cs =>
      if c = '\n' then [] :: splitOnNewlines cs
      else consHead [c] (splitOnNewlines cs)

/-- Embeds `Controller::processMouseAlgoStderr` (Controller.cpp:227-262) on
one chunk of diagnostic-stream text. The state is the `m_inputLines` fragment
list; the first component is the ordered list of commands emitted to the
worker; the second is the new state. When the chunk contains a newline
(`1 < inputLines.size()`), the buffered fragments joined together are prefixed
to the first line, the buffer is cleared, every complete middle line is a
command, and the trailing fragment is stored; otherwise the whole chunk is
appended to the buffer. -/
def processMouseAlgoStderr (m_inputLines : List (List Char))
    (input : List Char) : List (List Char) × List (List Char) :=
  if 1 < (splitOnNewlines input).length then
    ([m_inputLines.flatten ++ (splitOnNewlines input).headD []] ++
       ((splitOnNewlines input).drop 1).dropLast,
     [] ++ [(splitOnNewlines input).getLastD []])
  else
    ([] ++ ((splitOnNewlines input).drop 1).dropLast,
     m_inputLines ++ [(splitOnNewlines input).getLastD []])

/-- Feeds a list of chunks through `processMouseAlgoStderr` in order (one call
per `readyReadStandardError` delivery), concatenating the dispatched
commands. -/
def processStderrChunks (m_inputLines : List (List Char)) :
    List (List Char) → List (List Char) × List (List Char)
  | [] => ([], m_inputLines)
  | c :: cs =>
      ((processMouseAlgoStderr m_inputLines c).1 ++
        (processStderrChunks (processMouseAlgoStderr m_inputLines c).2 cs).1,
       (processStderrChunks (processMouseAlgoStderr m_inputLines c).2 cs).2)

/-- Commands framed out of a single buffer followed by `input`: every
definitely terminated line. -/
def framedCommands (buf input : List Char) : List (List Char) :=
  (splitOnNewlines (buf ++ input)).dropLast

/-- Unterminated tail left over after framing `buf ++ input`. -/
def framedRest (buf input : List Char) : List Char :=
  (splitOnNewlines (buf ++ input)).getLastD []

/-- Single-buffer framer folded over a chunk list. -/
def frameChunks (buf : List Char) :
    List (List Char) → List (List Char) × List Char
  | [] => ([], buf)
  | c :: cs =>
      (framedCommands buf c ++ (frameChunks (framedRest buf c) cs).1,
       (frameChunks (framedRest buf c) cs).2)

/-- Opposite compass direction: the direction of a shared edge as seen from
the neighboring tile. -/
def oppositeDirection : Direction → Direction
  | .NORTH => .SOUTH
  | .SOUTH => .NORTH
  | .EAST => .WEST
  | .WEST => .EAST

/-- Tile adjacent to a position across the edge in direction `d`. -/
def neighborPosition (p : Int × Int) (d : Direction) : Int × Int :=
  match d with
  | .NORTH => (p.1, p.2 + 1)
  | .SOUTH => (p.1, p.2 - 1)
  | .EAST => (p.1 + 1, p.2)
  | .WEST => (p.1 - 1, p.2)

/-- Declared-wall state of the whole maze graphic: for every tile position,
the per-direction `m_declaredWalls` map of its `TileGraphic`
(TileGraphic.h:34); `none` means the direction is not yet a key of that
map. -/
abbrev DeclaredWalls : Type := Int × Int → Direction → Option Bool

/-- State before any declaration: every `m_declaredWalls` map is empty. -/
def emptyDeclaredWalls : DeclaredWalls := fun _ _ => none

/-- Modelled from the spec: `MazeGraphic::declareWall` (declared at
MazeGraphic.h:25; its definition is outside the source sample). The spec makes
declaring a wall on one tile's edge equivalent to declaring the corresponding
edge of the neighboring tile, so one declaration writes both half-edges of the
shared edge. -/
def declareWall (s : DeclaredWalls) (x y : Int) (d : Direction) (w : Bool) :
    DeclaredWalls :=
  fun p e =>
    if p = (x, y) ∧ e = d then some w
    else if p = neighborPosition (x, y) d ∧ e = oppositeDirection d then some w
    else s p e

/-- One `MazeGraphic::declareWall` call as data. -/
structure DeclareOp where
  x : Int
  y : Int
  d : Direction
  isWallPresent : Bool

/-- Applies a sequence of `declareWall` calls in order. -/
def applyDeclares : List DeclareOp → DeclaredWalls → DeclaredWalls
  | [], s => s
  | op :: ops, s => applyDeclares ops (declareWall s op.x op.y op.d op.isWallPresent)

/-- Both half-edge records of every shared edge hold the same value. -/
def MirroredWalls (s : DeclaredWalls) : Prop :=
  ∀ p d, s p d = s (neighborPosition p d) (oppositeDirection d)

theorem oppositeDirection_involutive (d : Direction) :
    oppositeDirection (oppositeDirection d) = d := by
  cases d <;> rfl

theorem neighborPosition_involutive (p : Int × Int) (d : Direction) :
    neighborPosition (neighborPosition p d) (oppositeDirection d) = p := by
  obtain ⟨a, b⟩ := p
  cases d <;> simp [neighborPosition, oppositeDirection, Prod.ext_iff]

theorem neighborPosition_ne (p : Int × Int) (d : Direction) :
    neighborPosition p d ≠ p := by
  obtain ⟨a, b⟩ := p
  cases d <;> simp [neighborPosition, Prod.ext_iff]

theorem declareWall_eval (s : DeclaredWalls) (x y : Int) (d0 : Direction)
    (w : Bool) (p : Int × Int) (e : Direction) :
    declareWall s x y d0 w p e =
      if p = (x, y) ∧ e = d0 then some w
      else if p = neighborPosition (x, y) d0 ∧ e = oppositeDirection d0 then some w
      else s p e := rfl

theorem declareWall_mirrored {s : DeclaredWalls} (hs : MirroredWalls s)
    (x y : Int) (d0 : Direction) (w : Bool) :
    MirroredWalls (declareWall s x y d0 w) := by
  have imp1 : ∀ p d, p = (x, y) ∧ d = d0 →
      neighborPosition p d = neighborPosition (x, y) d0 ∧
        oppositeDirection d = oppositeDirection d0 := by
    rintro p d ⟨hq, he⟩
    exact ⟨by rw [hq, he], by rw [he]⟩
  have imp2 : ∀ p d, p = neighborPosition (x, y) d0 ∧ d = oppositeDirection d0 →
      neighborPosition p d = (x, y) ∧ oppositeDirection d = d0 := by
    rintro p d ⟨hq, he⟩
    exact ⟨by rw [hq, he, neighborPosition_involutive],
      by rw [he, oppositeDirection_involutive]⟩
  have imp3 : ∀ p d, neighborPosition p d = (x, y) ∧ oppositeDirection d = d0 →
      p = neighborPosition (x, y) d0 ∧ d = oppositeDirection d0 := by
    rintro p d ⟨hq, he⟩
    refine ⟨?_, by rw [← he, oppositeDirection_involutive]⟩
    rw [← neighborPosition_involutive p d, hq, he]
  have imp4 : ∀ p d, neighborPosition p d = neighborPosition (x, y) d0 ∧
      oppositeDirection d = oppositeDirection d0 → p = (x, y) ∧ d = d0 := by
    rintro p d ⟨hq, he⟩
    refine ⟨?_, by rw [← oppositeDirection_involutive d, he,
      oppositeDirection_involutive]⟩
    rw [← neighborPosition_involutive p d, hq, he, neighborPosition_involutive]
  intro p d
  by_cases hA : p = (x, y) ∧ d = d0
  · rw [declareWall_eval, if_pos hA, declareWall_eval]
    by_cases hA' : neighborPosition p d = (x, y) ∧ oppositeDirection d = d0
    · rw [if_pos hA']
    · rw [if_neg hA', if_pos (imp1 p d hA)]
  · by_cases hB : p = neighborPosition (x, y) d0 ∧ d = oppositeDirection d0
    · rw [declareWall_eval, if_neg hA, if_pos hB, declareWall_eval,
        if_pos (imp2 p d hB)]
    · have hA' : ¬(neighborPosition p d = (x, y) ∧ oppositeDirection d = d0) :=
        fun h => hB (imp3 p d h)
      have hB' : ¬(neighborPosition p d = neighborPosition (x, y) d0 ∧
          oppositeDirection d = oppositeDirection d0) :=
        fun h => hA (imp4 p d h)
      rw [declareWall_eval, if_neg hA, if_neg hB, declareWall_eval,
        if_neg hA', if_neg hB']
      exact hs p d

theorem applyDeclares_mirrored (ops : List DeclareOp) :
    ∀ s : DeclaredWalls, MirroredWalls s → MirroredWalls (applyDeclares ops s) := by
  induction ops with
  | nil => exact fun s hs => hs
  | cons op ops ih =>
      exact fun s hs =>
        ih _ (declareWall_mirrored hs op.x op.y op.d op.isWallPresent)

/-- C7: declaring a wall on a tile's edge is the same state change as
declaring the corresponding edge of the neighboring tile; and after any
sequence of declarations starting from the undeclared state, once both sides
of a shared edge are declared, the two tiles' declared wall-presence values
for that edge agree. -/
theorem C7_shared_edge_agreement :
    (∀ (s : DeclaredWalls) (x y : Int) (d : Direction) (w : Bool),
      declareWall s x y d w =
        declareWall s (neighborPosition (x, y) d).1 (neighborPosition (x, y) d).2
          (oppositeDirection d) w) ∧
    (∀ (ops : List DeclareOp) (p : Int × Int) (d : Direction) (b b' : Bool),
      applyDeclares ops emptyDeclaredWalls p d = some b →
      applyDeclares ops emptyDeclaredWalls (neighborPosition p d)
        (oppositeDirection d) = some b' →
      b = b') := by
  constructor
  · intro s x y d w
    funext p e
    rw [declareWall_eval, declareWall_eval]
    have hmk : ((neighborPosition (x, y) d).1, (neighborPosition (x, y) d).2)
        = neighborPosition (x, y) d := rfl
    rw [hmk, neighborPosition_involutive, oppositeDirection_involutive]
    by_cases h1 : p = (x, y) ∧ e = d
    · by_cases h2 : p = neighborPosition (x, y) d ∧ e = oppositeDirection d
      · rw [if_pos h1, if_pos h2]
      · rw [if_pos h1, if_neg h2, if_pos h1]
    · by_cases h2 : p = neighborPosition (x, y) d ∧ e = oppositeDirection d
      · rw [if_neg h1, if_pos h2, if_pos h2]
      · rw [if_neg h1, if_neg h2, if_neg h2, if_neg h1]
  · intro ops p d b b' hb hb'
    have hm : MirroredWalls (applyDeclares ops emptyDeclaredWalls) :=
      applyDeclares_mirrored ops emptyDeclaredWalls (fun _ _ => rfl)
    have := hm p d
    rw [hb, hb'] at this
    exact Option.some.inj this

/-- Witness for C7: one declaration, read back from both sides of the shared
edge. -/
theorem C7_shared_edge_agreement_witness :
    applyDeclares [⟨0, 0, Direction.NORTH, true⟩] emptyDeclaredWalls (0, 0)
      Direction.NORTH = some true ∧
    applyDeclares [⟨0, 0, Direction.NORTH, true⟩] emptyDeclaredWalls
      (neighborPosition (0, 0) Direction.NORTH)
      (oppositeDirection Direction.NORTH) = some true ∧
    (true : Bool) = true :=
  ⟨by decide, by decide,
   C7_shared_edge_agreement.2 [⟨0, 0, Direction.NORTH, true⟩] (0, 0)
     Direction.NORTH true true (by decide) (by decide)⟩

/-- C10: when the start cell's north and east walls agree (both present or
both absent), each of the two derived policies resolves the initial direction
to north unconditionally, via the first branch of
`Controller::getInitialDirection`. -/
theorem C10_agreeing_walls_resolve_north (walls : StartCellWalls)
    (h : walls.north = walls.east) :
    getInitialDirection OPENING_DIRECTION_STRING walls = Direction.NORTH ∧
    getInitialDirection WALL_DIRECTION_STRING walls = Direction.NORTH := by
  obtain ⟨n, e, s, w⟩ := walls
  simp only at h
  subst h
  cases n <;> exact ⟨rfl, rfl⟩

/-- Witness for C10 at a concrete wall layout. -/
theorem C10_agreeing_walls_resolve_north_witness :
    getInitialDirection OPENING_DIRECTION_STRING ⟨true, true, true, true⟩ =
      Direction.NORTH ∧
    getInitialDirection WALL_DIRECTION_STRING ⟨true, true, true, true⟩ =
      Direction.NORTH :=
  C10_agreeing_walls_resolve_north ⟨true, true, true, true⟩ rfl

/-- C3 fails as stated: with both the north and the east wall of the start
cell present, the opening policy resolves to north, which is walled; with
both absent, the wall policy resolves to north, which is unwalled. -/
theorem C3_counterexample :
    isWall ⟨true, true, true, true⟩
      (getInitialDirection OPENING_DIRECTION_STRING ⟨true, true, true, true⟩) = true ∧
    isWall ⟨false, false, true, true⟩
      (getInitialDirection WALL_DIRECTION_STRING ⟨false, false, true, true⟩) = false := by
  constructor <;> decide

/-- C3 (amended): if the start cell's north and east walls are not both
present, the opening policy resolves to a direction without a wall; if they
are not both absent, the wall policy resolves to a direction with a wall; and
a declared initial direction that is neither a recognized cardinal direction
name nor one of the two policy names is fatal. -/
theorem C3_amended_initial_direction (walls : StartCellWalls) (s : String) :
    (¬(walls.north = true ∧ walls.east = true) →
      isWall walls (getInitialDirection OPENING_DIRECTION_STRING walls) = false) ∧
    ((walls.north = true ∨ walls.east = true) →
      isWall walls (getInitialDirection WALL_DIRECTION_STRING walls) = true) ∧
    (stringToDirectionContains s = false →
      s ≠ OPENING_DIRECTION_STRING →
      s ≠ WALL_DIRECTION_STRING →
      validateMouseInitialDirectionFatal s = true) := by
  obtain ⟨n, e, sw, ww⟩ := walls
  refine ⟨?_, ?_, ?_⟩
  · cases n <;> cases e <;> intro h
    · rfl
    · rfl
    · rfl
    · exact absurd ⟨rfl, rfl⟩ h
  · cases n <;> cases e <;> intro h
    · simp at h
    · rfl
    · rfl
    · rfl
  · intro h1 h2 h3
    have e2 : (s == OPENING_DIRECTION_STRING) = false := beq_eq_false_iff_ne.mpr h2
    have e3 : (s == WALL_DIRECTION_STRING) = false := beq_eq_false_iff_ne.mpr h3
    simp [validateMouseInitialDirectionFatal, h1, e2, e3]

/-- Witness for C3 (amended) at a concrete wall layout and direction
string. -/
theorem C3_amended_initial_direction_witness :
    isWall ⟨false, true, true, true⟩
      (getInitialDirection OPENING_DIRECTION_STRING ⟨false, true, true, true⟩) = false ∧
    isWall ⟨false, true, true, true⟩
      (getInitialDirection WALL_DIRECTION_STRING ⟨false, true, true, true⟩) = true ∧
    validateMouseInitialDirectionFatal "SIDEWAYS" = true :=
  ⟨(C3_amended_initial_direction ⟨false, true, true, true⟩ "SIDEWAYS").1 (by simp),
   (C3_amended_initial_direction ⟨false, true, true, true⟩ "SIDEWAYS").2.1 (Or.inr rfl),
   (C3_amended_initial_direction ⟨false, true, true, true⟩ "SIDEWAYS").2.2
     (by decide) (by decide) (by decide)⟩

/-- C4: a non-empty worker result is written back to the process followed by
exactly one newline; an empty worker result writes nothing at all. -/
theorem C4_worker_result_write (response : List Char) :
    (response ≠ [] →
      receiveResultFromWorker response = response ++ ['\n'] ∧
      (receiveResultFromWorker response).count '\n' = response.count '\n' + 1) ∧
    (response = [] → receiveResultFromWorker response = []) := by
  constructor
  · intro h
    have hne : response.isEmpty = false := by
      simpa [List.isEmpty_iff] using h
    constructor
    · simp [receiveResultFromWorker, hne]
    · simp [receiveResultFromWorker, hne, List.count_append]
  · intro h
    subst h
    rfl

/-- Witness for C4 at a concrete non-empty and at the empty response. -/
theorem C4_worker_result_write_witness :
    (receiveResultFromWorker ['O', 'K'] = ['O', 'K', '\n'] ∧
      (receiveResultFromWorker ['O', 'K']).count '\n' =
        (['O', 'K'] : List Char).count '\n' + 1) ∧
    receiveResultFromWorker [] = [] :=
  ⟨(C4_worker_result_write ['O', 'K']).1 (by decide),
   (C4_worker_result_write []).2 rfl⟩

/-- C5: the wheel-speed fraction is accepted (not fatal) exactly when it lies
in the closed interval from 0 to 1; in particular both endpoints are
accepted. -/
theorem C5_wheel_speed_fraction_interval :
    (∀ f : ℚ, validateMouseWheelSpeedFractionFatal f = false ↔ 0 ≤ f ∧ f ≤ 1) ∧
    validateMouseWheelSpeedFractionFatal 0 = false ∧
    validateMouseWheelSpeedFractionFatal 1 = false := by
  refine ⟨fun f => ?_, by decide, by decide⟩
  simp [validateMouseWheelSpeedFractionFatal]

/-- C2: an unrecognized interface-mode string makes the constructor fatal, and
the mouse-definition file is never loaded (control never reaches
`Mouse::initialize`). -/
theorem C2_invalid_interface_mode_fatal_before_mouse_load
    (mouseAlgorithm : String) (opts : StaticOptions) (algoEnv : AlgoEnv)
    (walls : StartCellWalls) (mouseEnv : MouseEnv)
    (h : stringToInterfaceTypeContains opts.interfaceType = false) :
    (controllerConstructor mouseAlgorithm opts algoEnv walls mouseEnv).fatal = true ∧
    (controllerConstructor mouseAlgorithm opts algoEnv walls mouseEnv).mouseFileLoaded
      = false := by
  unfold controllerConstructor
  by_cases h1 : startMouseAlgorithmFatal mouseAlgorithm algoEnv
  · simp [h1]
  · simp [h1, validateMouseInterfaceTypeFatal, h]

/-- Witness for C2: the spec's example mode string \"SIDEWAYS\". -/
theorem C2_invalid_interface_mode_witness :
    (controllerConstructor "leftWallFollow"
      ⟨"default.xml", "SIDEWAYS", "OPENING", 2, 3, 1⟩
      ⟨["leftWallFollow"], ["Main.cpp"], 0⟩
      ⟨false, false, true, true⟩
      ⟨true, true, true⟩).fatal = true ∧
    (controllerConstructor "leftWallFollow"
      ⟨"default.xml", "SIDEWAYS", "OPENING", 2, 3, 1⟩
      ⟨["leftWallFollow"], ["Main.cpp"], 0⟩
      ⟨false, false, true, true⟩
      ⟨true, true, true⟩).mouseFileLoaded = false :=
  C2_invalid_interface_mode_fatal_before_mouse_load
    "leftWallFollow" ⟨"default.xml", "SIDEWAYS", "OPENING", 2, 3, 1⟩
    ⟨["leftWallFollow"], ["Main.cpp"], 0⟩ ⟨false, false, true, true⟩
    ⟨true, true, true⟩ (by decide)

/-- C6: an unknown mouse-algorithm name, a missing `Main.cpp` entry file, a
non-zero build exit code, and a failed mouse initialization each make the
whole run fatal. -/
theorem C6_startup_failures_fatal (mouseAlgorithm : String)
    (opts : StaticOptions) (algoEnv : AlgoEnv) (walls : StartCellWalls)
    (mouseEnv : MouseEnv) :
    (algoEnv.topLevelDirs.contains mouseAlgorithm = false →
      (controllerConstructor mouseAlgorithm opts algoEnv walls mouseEnv).fatal = true) ∧
    (algoEnv.relativePaths.contains "Main.cpp" = false →
      (controllerConstructor mouseAlgorithm opts algoEnv walls mouseEnv).fatal = true) ∧
    (algoEnv.buildExitCode ≠ 0 →
      (controllerConstructor mouseAlgorithm opts algoEnv walls mouseEnv).fatal = true) ∧
    (mouseEnv.initializeSuccess = false →
      (controllerConstructor mouseAlgorithm opts algoEnv walls mouseEnv).fatal = true) := by
  refine ⟨?_, ?_, ?_, ?_⟩
  · intro h
    have hs : startMouseAlgorithmFatal mouseAlgorithm algoEnv = true := by
      simp only [startMouseAlgorithmFatal, h]
      simp
    simp [controllerConstructor, hs]
  · intro h
    have hs : startMouseAlgorithmFatal mouseAlgorithm algoEnv = true := by
      simp only [startMouseAlgorithmFatal, h]
      simp
    simp [controllerConstructor, hs]
  · intro h
    have hd : decide (algoEnv.buildExitCode ≠ 0) = true := decide_eq_true h
    have hs : startMouseAlgorithmFatal mouseAlgorithm algoEnv = true := by
      simp only [startMouseAlgorithmFatal, hd]
      simp
    simp [controllerConstructor, hs]
  · intro h
    unfold controllerConstructor
    split
    · rfl
    · split
      · rfl
      · split
        · rfl
        · split
          · rfl
          · split
            · rfl
            · simp [initAndValidateMouseFatal, h]

/-- Witness for C6: a single environment that triggers all four failure
conditions. -/
theorem C6_startup_failures_fatal_witness :
    (controllerConstructor "mystery"
      ⟨"default.xml", "DISCRETE", "NORTH", 2, 3, 1⟩
      ⟨[], [], 1⟩ ⟨false, false, true, true⟩ ⟨false, true, true⟩).fatal = true :=
  (C6_startup_failures_fatal "mystery"
    ⟨"default.xml", "DISCRETE", "NORTH", 2, 3, 1⟩
    ⟨[], [], 1⟩ ⟨false, false, true, true⟩ ⟨false, true, true⟩).1 (by decide)

/-- C8: during epoch `E`, a record whose sequence stamp differs from `E` is
treated as unvisited; its stale distance, parent and direction data
contributes nothing (any two stale records are touched to the same result);
and the first touch stamps the record with `E`. -/
theorem C8_stale_records_unvisited (E : Nat) (i j : Info)
    (hi : i.sequenceNumber ≠ E) (hj : j.sequenceNumber ≠ E) :
    isVisited E i = false ∧
    touchInfo E i = touchInfo E j ∧
    (touchInfo E i).sequenceNumber = E := by
  refine ⟨by simp [isVisited, hi], ?_, by simp [touchInfo, hi]⟩
  simp [touchInfo, hi, hj]

/-- Witness for C8 at two concrete stale records with different stale data. -/
theorem C8_stale_records_unvisited_witness :
    isVisited 5 (storeInfo 4 1 2 3 1 1 1) = false ∧
    touchInfo 5 (storeInfo 4 1 2 3 1 1 1) = touchInfo 5 (storeInfo 3 9 9 9 2 2 2) ∧
    (touchInfo 5 (storeInfo 4 1 2 3 1 1 1)).sequenceNumber = 5 :=
  C8_stale_records_unvisited 5 (storeInfo 4 1 2 3 1 1 1)
    (storeInfo 3 9 9 9 2 2 2) (by decide) (by decide)

/-- C9: each of the five `unsigned char` fields of `Info` holds a value below
256; the sequence stamp wraps modulo 256, so a stamp written in epoch
`e + 256` equals the stamp written in epoch `e`; and the heap back-index can
address at most 256 slots. -/
theorem C9_info_fields_are_bytes (seq parentPos : Nat) (dist : ℚ) (par : Nat)
    (srcDir runLen heapIdx : Nat) :
    (storeInfo seq parentPos dist par srcDir runLen heapIdx).sequenceNumber < 256 ∧
    (storeInfo seq parentPos dist par srcDir runLen heapIdx).parentPosition < 256 ∧
    (storeInfo seq parentPos dist par srcDir runLen heapIdx).sourceDirection < 256 ∧
    (storeInfo seq parentPos dist par srcDir runLen heapIdx).straightAwayLength < 256 ∧
    (storeInfo seq parentPos dist par srcDir runLen heapIdx).heapIndex < 256 ∧
    (storeInfo (seq + 256) parentPos dist par srcDir runLen heapIdx).sequenceNumber
      = (storeInfo seq parentPos dist par srcDir runLen heapIdx).sequenceNumber := by
  refine ⟨?_, ?_, ?_, ?_, ?_, ?_⟩
  · exact Nat.mod_lt _ (by decide)
  · exact Nat.mod_lt _ (by decide)
  · exact Nat.mod_lt _ (by decide)
  · exact Nat.mod_lt _ (by decide)
  · exact Nat.mod_lt _ (by decide)
  · simp [storeInfo, byteStore, Nat.add_mod_right]

theorem consHead_ne_nil (b : List Char) (l : List (List Char)) :
    consHead b l ≠ [] := by
  cases l <;> simp [consHead]

theorem splitOnNewlines_ne_nil (xs : List Char) : splitOnNewlines xs ≠ [] := by
  cases xs with
  | nil => simp [splitOnNewlines]
  | cons c cs =>
      simp only [splitOnNewlines]
      split
      · simp
      · exact consHead_ne_nil _ _

theorem consHead_consHead (a b : List Char) (l : List (List Char)) :
    consHead a (consHead b l) = consHead (a ++ b) l := by
  cases l <;> simp [consHead]

theorem consHead_nil (l : List (List Char)) (h : l ≠ []) :
    consHead [] l = l := by
  cases l
  · exact absurd rfl h
  · simp [consHead]

theorem getLastD_default_irrel (l : List (List Char)) (h : l ≠ [])
    (d d' : List Char) : l.getLastD d = l.getLastD d' := by
  cases l with
  | nil => exact absurd rfl h
  | cons a t => rw [List.getLastD_cons, List.getLastD_cons]

theorem getLastD_mem (l : List (List Char)) (h : l ≠ []) :
    l.getLastD [] ∈ l := by
  induction l with
  | nil => exact absurd rfl h
  | cons a t ih =>
      cases t with
      | nil => simp
      | cons b t2 =>
          rw [List.getLastD_cons,
            getLastD_default_irrel (b :: t2) (by simp) a []]
          exact List.mem_cons_of_mem _ (ih (by simp))

theorem getLastD_append (A B : List (List Char)) (h : B ≠ []) :
    (A ++ B).getLastD [] = B.getLastD [] := by
  induction A with
  | nil => rfl
  | cons a A2 ih =>
      have hne : A2 ++ B ≠ [] := by
        intro hh
        exact h (List.append_eq_nil.mp hh).2
      rw [List.cons_append, List.getLastD_cons,
        getLastD_default_irrel (A2 ++ B) hne a [], ih]

theorem splitOnNewlines_front_buffer (buf xs : List Char) (h : '\n' ∉ buf) :
    splitOnNewlines (buf ++ xs) = consHead buf (splitOnNewlines xs) := by
  induction buf with
  | nil =>
      simpa using (consHead_nil _ (splitOnNewlines_ne_nil xs)).symm
  | cons b bs ih =>
      have hb : ¬ b = '\n' := by
        intro hh
        exact h (by simp [hh])
      have hbs : '\n' ∉ bs := fun hh => h (List.mem_cons_of_mem _ hh)
      rw [List.cons_append]
      show (if b = '\n' then [] :: splitOnNewlines (bs ++ xs)
        else consHead [b] (splitOnNewlines (bs ++ xs))) = _
      rw [if_neg hb, ih hbs, consHead_consHead]
      rfl

theorem splitOnNewlines_no_newline (xs : List Char) :
    ∀ l ∈ splitOnNewlines xs, '\n' ∉ l := by
  induction xs with
  | nil =>
      intro l hl
      simp only [splitOnNewlines, List.mem_singleton] at hl
      simp [hl]
  | cons c cs ih =>
      intro l hl
      simp only [splitOnNewlines] at hl
      by_cases hc : c = '\n'
      · rw [if_pos hc] at hl
        rcases List.mem_cons.mp hl with h | h
        · simp [h]
        · exact ih l h
      · rw [if_neg hc] at hl
        rcases hS : splitOnNewlines cs with _ | ⟨s0, t⟩
        · exact absurd hS (splitOnNewlines_ne_nil cs)
        · rw [hS] at hl
          simp only [consHead, List.singleton_append] at hl
          rcases List.mem_cons.mp hl with h | h
          · subst h
            intro hmem
            rcases List.mem_cons.mp hmem with h1 | h1
            · exact hc h1.symm
            · exact ih s0 (by rw [hS]; exact List.mem_cons_self _ _) h1
          · exact ih l (by rw [hS]; exact List.mem_cons_of_mem _ h)

theorem splitOnNewlines_append (xs ys : List Char) :
    splitOnNewlines (xs ++ ys) =
      (splitOnNewlines xs).dropLast ++
        consHead ((splitOnNewlines xs).getLastD []) (splitOnNewlines ys) := by
  induction xs with
  | nil =>
      rw [List.nil_append]
      show splitOnNewlines ys = ([[]] : List (List Char)).dropLast ++
        consHead (([[]] : List (List Char)).getLastD []) (splitOnNewlines ys)
      rw [show ([[]] : List (List Char)).dropLast = [] from rfl,
        show ([[]] : List (List Char)).getLastD [] = [] from rfl,
        List.nil_append, consHead_nil _ (splitOnNewlines_ne_nil ys)]
  | cons c cs ih =>
      rw [List.cons_append]
      by_cases hc : c = '\n'
      · show (if c = '\n' then [] :: splitOnNewlines (cs ++ ys)
          else consHead [c] (splitOnNewlines (cs ++ ys))) =
            ((if c = '\n' then [] :: splitOnNewlines cs
              else consHead [c] (splitOnNewlines cs)).dropLast ++
              consHead ((if c = '\n' then [] :: splitOnNewlines cs
                else consHead [c] (splitOnNewlines cs)).getLastD [])
                (splitOnNewlines ys))
        rw [if_pos hc, if_pos hc, ih,
          List.dropLast_cons_of_ne_nil (splitOnNewlines_ne_nil cs),
          List.getLastD_cons,
          getLastD_default_irrel _ (splitOnNewlines_ne_nil cs) [] [],
          List.cons_append]
      · show (if c = '\n' then [] :: splitOnNewlines (cs ++ ys)
          else consHead [c] (splitOnNewlines (cs ++ ys))) =
            ((if c = '\n' then [] :: splitOnNewlines cs
              else consHead [c] (splitOnNewlines cs)).dropLast ++
              consHead ((if c = '\n' then [] :: splitOnNewlines cs
                else consHead [c] (splitOnNewlines cs)).getLastD [])
                (splitOnNewlines ys))
        rw [if_neg hc, if_neg hc, ih]
        rcases hS : splitOnNewlines cs with _ | ⟨s0, t⟩
        · exact absurd hS (splitOnNewlines_ne_nil cs)
        · cases t with
          | nil =>
              show consHead [c] (([s0] : List (List Char)).dropLast ++
                consHead (([s0] : List (List Char)).getLastD [])
                  (splitOnNewlines ys)) = _
              rw [show ([s0] : List (List Char)).dropLast = [] from rfl,
                show ([s0] : List (List Char)).getLastD [] = s0 from rfl,
                List.nil_append, consHead_consHead]
              show _ = (consHead [c] [s0]).dropLast ++
                consHead ((consHead [c] [s0]).getLastD []) (splitOnNewlines ys)
              rw [show consHead [c] [s0] = [[c] ++ s0] from rfl,
                show ([[c] ++ s0] : List (List Char)).dropLast = [] from rfl,
                show ([[c] ++ s0] : List (List Char)).getLastD [] = [c] ++ s0
                  from rfl,
                List.nil_append]
          | cons s1 t2 => rfl

theorem framed_append (buf x y : List Char) :
    framedCommands buf (x ++ y) =
      framedCommands buf x ++ framedCommands (framedRest buf x) y ∧
    framedRest buf (x ++ y) = framedRest (framedRest buf x) y := by
  have hL : '\n' ∉ (splitOnNewlines (buf ++ x)).getLastD [] :=
    splitOnNewlines_no_newline _ _
      (getLastD_mem _ (splitOnNewlines_ne_nil _))
  have hkey : splitOnNewlines (buf ++ (x ++ y)) =
      (splitOnNewlines (buf ++ x)).dropLast ++
        splitOnNewlines ((splitOnNewlines (buf ++ x)).getLastD [] ++ y) := by
    rw [← List.append_assoc, splitOnNewlines_append (buf ++ x) y,
      splitOnNewlines_front_buffer _ _ hL]
  constructor
  · show (splitOnNewlines (buf ++ (x ++ y))).dropLast =
      (splitOnNewlines (buf ++ x)).dropLast ++
        (splitOnNewlines ((splitOnNewlines (buf ++ x)).getLastD [] ++ y)).dropLast
    rw [hkey, List.dropLast_append_of_ne_nil _ (splitOnNewlines_ne_nil _)]
  · show (splitOnNewlines (buf ++ (x ++ y))).getLastD [] =
      (splitOnNewlines ((splitOnNewlines (buf ++ x)).getLastD [] ++ y)).getLastD []
    rw [hkey, getLastD_append _ _ (splitOnNewlines_ne_nil _)]

theorem framedRest_no_newline (buf input : List Char) :
    '\n' ∉ framedRest buf input :=
  splitOnNewlines_no_newline _ _
    (getLastD_mem _ (splitOnNewlines_ne_nil _))

theorem frameChunks_flatten (cs : List (List Char)) :
    ∀ buf : List Char, '\n' ∉ buf →
      frameChunks buf cs =
        (framedCommands buf cs.flatten, framedRest buf cs.flatten) := by
  induction cs with
  | nil =>
      intro buf hb
      have h1 : splitOnNewlines (buf ++ ([] : List Char)) = [buf ++ []] := by
        rw [splitOnNewlines_front_buffer buf [] hb]
        rfl
      show ([], buf) = (framedCommands buf [], framedRest buf [])
      show ([], buf) = ((splitOnNewlines (buf ++ [])).dropLast,
        (splitOnNewlines (buf ++ [])).getLastD [])
      rw [h1]
      simp
  | cons c cs ih =>
      intro buf hb
      show (framedCommands buf c ++ (frameChunks (framedRest buf c) cs).1,
        (frameChunks (framedRest buf c) cs).2) = _
      rw [ih (framedRest buf c) (framedRest_no_newline buf c)]
      rw [List.flatten_cons, (framed_append buf c cs.flatten).1,
        (framed_append buf c cs.flatten).2]

theorem processMouseAlgoStderr_refines (st : List (List Char))
    (input : List Char) (h : '\n' ∉ st.flatten) :
    (processMouseAlgoStderr st input).1 = framedCommands st.flatten input ∧
    (processMouseAlgoStderr st input).2.flatten = framedRest st.flatten input := by
  have hsplit : splitOnNewlines (st.flatten ++ input) =
      consHead st.flatten (splitOnNewlines input) :=
    splitOnNewlines_front_buffer _ _ h
  rcases hS : splitOnNewlines input with _ | ⟨h0, t⟩
  · exact absurd hS (splitOnNewlines_ne_nil input)
  · rw [hS] at hsplit
    cases t with
    | nil =>
        have hlen : ¬ 1 < ([h0] : List (List Char)).length := by simp
        constructor
        · show (processMouseAlgoStderr st input).1 =
            (splitOnNewlines (st.flatten ++ input)).dropLast
          rw [hsplit]
          simp only [processMouseAlgoStderr, hS]
          rw [if_neg hlen]
          rfl
        · show (processMouseAlgoStderr st input).2.flatten =
            (splitOnNewlines (st.flatten ++ input)).getLastD []
          rw [hsplit]
          simp only [processMouseAlgoStderr, hS]
          rw [if_neg hlen]
          show (st ++ [[h0].getLastD []]).flatten =
            (consHead st.flatten [h0]).getLastD []
          simp [consHead, List.getLastD_cons, List.getLastD_nil,
            List.flatten_append]
    | cons h1 t2 =>
        have hlen : 1 < (h0 :: h1 :: t2 : List (List Char)).length := by
          simp [List.length_cons]
        constructor
        · show (processMouseAlgoStderr st input).1 =
            (splitOnNewlines (st.flatten ++ input)).dropLast
          rw [hsplit]
          simp only [processMouseAlgoStderr, hS]
          rw [if_pos hlen]
          rfl
        · show (processMouseAlgoStderr st input).2.flatten =
            (splitOnNewlines (st.flatten ++ input)).getLastD []
          rw [hsplit]
          simp only [processMouseAlgoStderr, hS]
          rw [if_pos hlen]
          show ([] ++ [(h0 :: h1 :: t2).getLastD []] : List (List Char)).flatten =
            (consHead st.flatten (h0 :: h1 :: t2)).getLastD []
          simp [consHead, List.getLastD_cons]

theorem processStderrChunks_refines (cs : List (List Char)) :
    ∀ st : List (List Char), '\n' ∉ st.flatten →
      (processStderrChunks st cs).1 = (frameChunks st.flatten cs).1 ∧
      (processStderrChunks st cs).2.flatten = (frameChunks st.flatten cs).2 := by
  induction cs with
  | nil => exact fun st h => ⟨rfl, rfl⟩
  | cons c cs ih =>
      intro st h
      have hstep := processMouseAlgoStderr_refines st c h
      have hb2 : '\n' ∉ (processMouseAlgoStderr st c).2.flatten := by
        rw [hstep.2]
        exact framedRest_no_newline st.flatten c
      have hrec := ih (processMouseAlgoStderr st c).2 hb2
      constructor
      · show (processMouseAlgoStderr st c).1 ++
            (processStderrChunks (processMouseAlgoStderr st c).2 cs).1 =
          framedCommands st.flatten c ++
            (frameChunks (framedRest st.flatten c) cs).1
        rw [hstep.1, hrec.1, hstep.2]
      · show (processStderrChunks (processMouseAlgoStderr st c).2 cs).2.flatten =
          (frameChunks (framedRest st.flatten c) cs).2
        rw [hrec.2, hstep.2]

/-- C1: feeding the diagnostic stream to `processMouseAlgoStderr` chunk by
chunk, for any way of cutting the stream into chunks, dispatches exactly the
same ordered command sequence as feeding the whole stream as one single
chunk; the trailing unterminated fragment buffered at the end is the same as
well. -/
theorem C1_chunked_framing_equivalent (chunks : List (List Char)) :
    (processStderrChunks [] chunks).1 =
      (processStderrChunks [] [chunks.flatten]).1 ∧
    (processStderrChunks [] chunks).2.flatten =
      (processStderrChunks [] [chunks.flatten]).2.flatten := by
  have h0 : '\n' ∉ (([] : List (List Char)).flatten) := by simp
  have ha := processStderrChunks_refines chunks [] h0
  have hb := processStderrChunks_refines [chunks.flatten] [] h0
  have hc := frameChunks_flatten chunks [] (by simp)
  have hd := frameChunks_flatten [chunks.flatten] [] (by simp)
  have he : ([chunks.flatten] : List (List Char)).flatten = chunks.flatten := by
    simp
  rw [he] at hd
  have hfn : (([] : List (List Char)).flatten) = ([] : List Char) := rfl
  rw [hfn] at ha hb
  constructor
  · rw [ha.1, hb.1, hc, hd]
  · rw [ha.2, hb.2, hc, hd]

end Mms
